import Mathlib

/-!
# Calendar sync: filter, normalizer, paginated client and merger

A shallow embedding of the Go packages `sync/config`, `sync/calendar` and
`sync/merger`.  Go strings are Lean strings read as sequences of runes.  The
standard-library pieces the code calls (`unicode` case tables, `time`,
`encoding/json`, the HTTP round trip, the file system) are explicit
parameters or explicit state.
-/

namespace CalendarSync

/-! ## Results with errors -/

deriving instance DecidableEq for Except

/-! ## package config -/

/-- The filtering criteria of a source (config.go, `EventFilter`). -/
structure EventFilter where
  IncludeKeywords : List String
  ExcludeKeywords : List String
  deriving DecidableEq, Repr

/-- A calendar source (config.go, `Source`); `Visible` is the `*bool`, `none` being nil. -/
structure Source where
  Name : String
  ContactEmail : String
  CalendarID : String
  Color : String
  Website : String
  Visible : Option Bool
  EventFilter : EventFilter
  deriving DecidableEq, Repr

/-! ## package strings / unicode, as used by the code -/

namespace strings

/-- Go `unicode.ToLower`: runes up to `MaxASCII` are handled in code, the others
are looked up in the Unicode case table, here the parameter `tbl`. -/
def unicodeToLower (tbl : Char → Char) (r : Char) : Char :=
  if r.toNat ≤ 127 then
    if 65 ≤ r.toNat ∧ r.toNat ≤ 90 then Char.ofNat (r.toNat + 32) else r
  else tbl r

/-- Go `strings.ToLower`: every rune mapped by `unicode.ToLower`. -/
def ToLower (tbl : Char → Char) (s : String) : String :=
  String.mk (s.data.map (unicodeToLower tbl))

/-- Whether `sub` occurs in `s` starting at some position (on rune lists). -/
def containsRunes : List Char → List Char → Bool
  | [], sub => sub.isPrefixOf []
  | c :: s, sub => sub.isPrefixOf (c :: s) || containsRunes s sub

/-- Go `strings.Contains`. -/
def Contains (s sub : String) : Bool :=
  containsRunes s.data sub.data

/-- Go `strings.ReplaceAll(s, old, new)` for one-rune `old` and `new`. -/
def ReplaceAll (s : String) (old new : Char) : String :=
  String.mk (s.data.map (fun r => if r = old then new else r))

end strings

/-! ## package calendar: events and the filter -/

/-- A date or date-time of the provider (client.go, `EventDateTime`). -/
structure EventDateTime where
  DateTime : String
  Date : String
  TimeZone : String
  deriving DecidableEq, Repr

/-- A provider event (client.go, `Event`). -/
structure Event where
  ID : String
  Summary : String
  Description : String
  Location : String
  Start : EventDateTime
  End : EventDateTime
  HTMLLink : String
  Status : String
  deriving DecidableEq, Repr

/-- The first loop of `shouldIncludeEvent`: `false` as soon as a non-empty
exclude keyword occurs in the event text. -/
def excludeLoop (tbl : Char → Char) (eventText : String) : List String → Bool
  | [] => true
  | keyword :: rest =>
    if keyword ≠ "" ∧ strings.Contains eventText (strings.ToLower tbl keyword) = true then false
    else excludeLoop tbl eventText rest

/-- The second loop of `shouldIncludeEvent`: `true` as soon as a non-empty
include keyword occurs in the event text, `false` when the list is exhausted. -/
def includeLoop (tbl : Char → Char) (eventText : String) : List String → Bool
  | [] => false
  | keyword :: rest =>
    if keyword ≠ "" ∧ strings.Contains eventText (strings.ToLower tbl keyword) = true then true
    else includeLoop tbl eventText rest

/-- The event text built on the first line of `shouldIncludeEvent`. -/
def eventText (tbl : Char → Char) (event : Event) : String :=
  strings.ToLower tbl (event.Summary ++ " " ++ event.Description)

/-- Function `shouldIncludeEvent` of fetch.go. -/
def shouldIncludeEvent (tbl : Char → Char) (event : Event) (filter : EventFilter) : Bool :=
  let eventText := eventText tbl event
  if excludeLoop tbl eventText filter.ExcludeKeywords = false then false
  else if filter.IncludeKeywords.length = 0 then true
  else includeLoop tbl eventText filter.IncludeKeywords

/-! ## SanitizeSourceName -/

/-- The test of the loop body of `SanitizeSourceName`. -/
def keepRune (r : Char) : Bool :=
  (97 ≤ r.toNat && r.toNat ≤ 122) || (48 ≤ r.toNat && r.toNat ≤ 57) || r = '-'

/-- Function `SanitizeSourceName` of normalize.go. -/
def SanitizeSourceName (tbl : Char → Char) (name : String) : String :=
  let sanitized := strings.ToLower tbl name
  let sanitized := strings.ReplaceAll sanitized ' ' '-'
  sanitized.data.foldl (fun result r => if keepRune r then result ++ String.singleton r else result) ""

/-- The per-character rule of the specification of the sanitizer: an ASCII
letter becomes its lowercase form, a space becomes `-`, an ASCII digit and `-`
are kept, any other character is dropped. -/
def sanitizeSpecRune (c : Char) : Option Char :=
  if 65 ≤ c.toNat ∧ c.toNat ≤ 90 then some (Char.ofNat (c.toNat + 32))
  else if 97 ≤ c.toNat ∧ c.toNat ≤ 122 then some c
  else if c = ' ' then some '-'
  else if (48 ≤ c.toNat ∧ c.toNat ≤ 57) ∨ c = '-' then some c
  else none

/-- The sanitizer as the specification words it. -/
def sanitizeSpec (name : String) : String :=
  String.mk (name.data.filterMap sanitizeSpecRune)

/-! ## package calendar: the normalizer -/

/-- The part of Go's `time` package that the code calls. -/
structure TimeLib where
  /-- Go `time.Time`. -/
  Time : Type
  /-- Go `time.Parse(time.RFC3339, s)`. -/
  Parse : String → Except String Time
  /-- Go `t.Format("2006-01-02")`. -/
  FormatDate : Time → String
  /-- Go `t.Format("15:04")`. -/
  FormatClock : Time → String
  /-- Go `t.Format(time.RFC3339)`. -/
  FormatRFC3339 : Time → String

/-- An event in the site's format (normalize.go, `NormalizedEvent`). -/
structure NormalizedEvent where
  ID : String
  Title : String
  Description : String
  Type' : String
  StartDate : String
  EndDate : String
  StartTime : String
  EndTime : String
  Location : String
  Website : String
  GcalLink : String
  Visible : Bool
  Color : String
  deriving DecidableEq, Repr

/-- Function `parseEventDateTime` of normalize.go: the date and the time string. -/
def parseEventDateTime (T : TimeLib) (edt : EventDateTime) : Except String (String × String) :=
  if edt.Date ≠ "" then
    .ok (edt.Date, "00:00")
  else if edt.DateTime ≠ "" then
    match T.Parse edt.DateTime with
    | .error err => .error ("failed to parse datetime: " ++ err)
    | .ok t => .ok (T.FormatDate t, T.FormatClock t)
  else
    .error "event has no date or datetime"

/-- Function `NormalizeEvent` of normalize.go. -/
def NormalizeEvent (T : TimeLib) (event : Event) (source : Source) : Except String NormalizedEvent :=
  let normalizedID := source.Name ++ "-" ++ event.ID
  match parseEventDateTime T event.Start with
  | .error err => .error ("failed to parse start time: " ++ err)
  | .ok (startDate, startTime) =>
    match parseEventDateTime T event.End with
    | .error err => .error ("failed to parse end time: " ++ err)
    | .ok (endDate, endTime) =>
      let visible :=
        match source.Visible with
        | some v => v
        | none => true
      .ok {
        ID := normalizedID
        Title := event.Summary
        Description := event.Description
        Type' := "static"
        StartDate := startDate
        EndDate := endDate
        StartTime := startTime
        EndTime := endTime
        Location := event.Location
        Website := source.Website
        GcalLink := event.HTMLLink
        Visible := visible
        Color := source.Color }

/-- The loop of `NormalizeEvents`, with the slice `normalized` as accumulator;
the warning printed for a skipped event is not part of the model. -/
def normalizeLoop (T : TimeLib) (source : Source) :
    List Event → List NormalizedEvent → List NormalizedEvent
  | [], normalized => normalized
  | event :: rest, normalized =>
    match NormalizeEvent T event source with
    | .error _ => normalizeLoop T source rest normalized
    | .ok ne => normalizeLoop T source rest (normalized ++ [ne])

/-- Function `NormalizeEvents` of normalize.go. -/
def NormalizeEvents (T : TimeLib) (events : List Event) (source : Source) :
    Except String (List NormalizedEvent) :=
  .ok (normalizeLoop T source events [])

/-! ## package calendar: the paginated client -/

/-- One page of the provider's answer (client.go, `EventsResponse`). -/
structure EventsResponse where
  Items : List Event
  NextPageToken : String
  deriving DecidableEq, Repr

/-- The request built in the loop body of `GetEvents`: the URL and the query
parameters in the order in which they are added. -/
structure Request where
  Method : String
  URL : String
  Query : List (String × String)
  deriving DecidableEq, Repr

/-- What one `httpClient.Do` gives: a transport error, or a response with its
status code and the result of decoding its body as an `EventsResponse`. -/
inductive RoundTrip where
  | failure (err : String)
  | response (StatusCode : Nat) (Body : Except String EventsResponse)
  deriving DecidableEq

/-- The HTTP side of the client: `url.PathEscape` and the round trip, over a
server (and network) state `σ`. -/
structure Transport (σ : Type) where
  PathEscape : String → String
  Do : σ → Request → RoundTrip × σ

/-- The API client (client.go, `Client`); the HTTP client is the transport. -/
structure Client where
  apiKey : String
  deriving DecidableEq, Repr

/-- The constant of client.go. -/
def googleCalendarAPIBase : String := "https://www.googleapis.com/calendar/v3"

/-- The request of one iteration of `GetEvents`, for the current page token.
`http.NewRequest` gets the method `GET` and a URL made of the constant base and
a path-escaped segment, which always parses, so its error return is not modelled. -/
def buildRequest {σ : Type} (tr : Transport σ) (T : TimeLib) (c : Client) (calendarID : String)
    (timeMin timeMax : T.Time) (pageToken : String) : Request :=
  let apiURL := googleCalendarAPIBase ++ "/calendars/" ++ tr.PathEscape calendarID ++ "/events"
  let q : List (String × String) :=
    [("timeMin", T.FormatRFC3339 timeMin), ("timeMax", T.FormatRFC3339 timeMax),
     ("singleEvents", "true"), ("orderBy", "startTime")]
  let q := if c.apiKey ≠ "" then q ++ [("key", c.apiKey)] else q
  let q := if pageToken ≠ "" then q ++ [("pageToken", pageToken)] else q
  { Method := "GET", URL := apiURL, Query := q }

/-- The result of a run of the client: the returned value, the server state
after it and the requests sent, in order. -/
abbrev ClientRun (σ : Type) := Except String (List Event) × σ × List Request

/-- The `for` loop of `GetEvents`.  The loop has no bound of its own, so the
model counts iterations down from `fuel` and gives `none` when they run out. -/
def getEventsLoop {σ : Type} (tr : Transport σ) (T : TimeLib) (c : Client) (calendarID : String)
    (timeMin timeMax : T.Time) :
    Nat → σ → List Event → String → List Request → Option (ClientRun σ)
  | 0, _, _, _, _ => none
  | fuel + 1, s, allEvents, pageToken, sent =>
    let req := buildRequest tr T c calendarID timeMin timeMax pageToken
    match tr.Do s req with
    | (.failure err, s1) => some (.error ("failed to fetch events: " ++ err), s1, sent ++ [req])
    | (.response status body, s1) =>
      if status ≠ 200 then
        some (.error ("API request failed with status " ++ toString status), s1, sent ++ [req])
      else
        match body with
        | .error err => some (.error ("failed to decode response: " ++ err), s1, sent ++ [req])
        | .ok eventsResp =>
          let allEvents := allEvents ++ eventsResp.Items
          let pageToken := eventsResp.NextPageToken
          if pageToken = "" then some (.ok allEvents, s1, sent ++ [req])
          else getEventsLoop tr T c calendarID timeMin timeMax fuel s1 allEvents pageToken
            (sent ++ [req])

/-- Method `Client.GetEvents` of client.go. -/
def Client.GetEvents {σ : Type} (tr : Transport σ) (T : TimeLib) (c : Client) (fuel : Nat) (s : σ)
    (calendarID : String) (timeMin timeMax : T.Time) : Option (ClientRun σ) :=
  getEventsLoop tr T c calendarID timeMin timeMax fuel s [] "" []

/-- The filtering loop of `FetchEvents`, with the slice `filtered` as accumulator. -/
def filterLoop (tbl : Char → Char) (source : Source) : List Event → List Event → List Event
  | [], filtered => filtered
  | event :: rest, filtered =>
    if event.Status = "cancelled" then filterLoop tbl source rest filtered
    else if shouldIncludeEvent tbl event source.EventFilter = true then
      filterLoop tbl source rest (filtered ++ [event])
    else filterLoop tbl source rest filtered

/-- Function `FetchEvents` of fetch.go. -/
def FetchEvents {σ : Type} (tbl : Char → Char) (tr : Transport σ) (T : TimeLib) (client : Client)
    (fuel : Nat) (s : σ) (source : Source) (timeMin timeMax : T.Time) : Option (ClientRun σ) :=
  match client.GetEvents tr T fuel s source.CalendarID timeMin timeMax with
  | none => none
  | some (.error err, s1, sent) =>
    some (.error ("failed to fetch events for " ++ source.Name ++ ": " ++ err), s1, sent)
  | some (.ok events, s1, sent) => some (.ok (filterLoop tbl source events []), s1, sent)

/-! ## package merger -/

/-- Go `json.RawMessage`: one opaque JSON record. -/
abbrev RawMessage := String

/-- The structure of the catalog files (merge.go, `EventsFile`). -/
structure EventsFile where
  Events : List RawMessage
  Overrides : List RawMessage
  deriving DecidableEq, Repr

/-- The part of Go's `encoding/json` that the merger calls. -/
structure JSONLib where
  /-- Go `json.Marshal` on a `*NormalizedEvent`. -/
  Marshal : NormalizedEvent → Except String RawMessage
  /-- Go `json.MarshalIndent(eventsFile, "", "  ")`. -/
  MarshalIndent : EventsFile → Except String String
  /-- Go `json.Unmarshal` into an `EventsFile`. -/
  Unmarshal : String → Except String EventsFile

/-- The files of the file system: the content of each path that exists. -/
abbrev FileSystem := String → Option String

/-- The file system with the entry of `p` replaced. -/
def FileSystem.set (fs : FileSystem) (p : String) (v : Option String) : FileSystem :=
  fun q => if q = p then v else fs q

/-- The operating system as one run sees it: `filepath.Dir`, the successive
values of the random name generator of `os.CreateTemp`, and which system calls
fail (`WriteFails = some n`: the write fails after `n` runes). -/
structure OS where
  Dir : String → String
  Random : List String
  ReadFileFails : Bool
  CreateTempFails : Bool
  WriteFails : Option Nat
  SyncFails : Bool
  CloseFails : Bool
  RenameFails : Bool
  RemoveFails : Bool

/-- Go `os.Remove`: the error and the file system after the call.  A failing
call leaves the file in place. -/
def Remove (os : OS) (fs : FileSystem) (name : String) : Except String Unit × FileSystem :=
  if os.RemoveFails then (.error "remove failed", fs)
  else (.ok (), fs.set name none)

/-- The deferred function of `writeEventsFile` for a `tempFile` that is not nil:
it closes the file and calls `os.Remove(tempPath)`, whose error it discards. -/
def deferredCleanup (os : OS) (fs : FileSystem) (tempPath : String) : FileSystem :=
  (Remove os fs tempPath).2

/-- Go `os.Rename` when it succeeds. -/
def Rename (fs : FileSystem) (oldpath newpath : String) : FileSystem :=
  if oldpath = newpath then fs else (fs.set newpath (fs oldpath)).set oldpath none

/-- The helper `joinPath` of Go's `os.CreateTemp`. -/
def joinPath (dir name : String) : String :=
  if dir.data.getLast? = some '/' then dir ++ name else dir ++ "/" ++ name

/-- The retry loop of `os.CreateTemp` for the pattern of `writeEventsFile`: the
first candidate name that does not exist yet (the file is opened with `O_EXCL`). -/
def createTempTry (fs : FileSystem) (dir : String) : List String → Option String
  | [] => none
  | r :: rest =>
    let name := joinPath dir ".events-materialized-" ++ r ++ ".json.tmp"
    if (fs name).isNone then some name else createTempTry fs dir rest

/-- Go `os.CreateTemp(dir, ".events-materialized-*.json.tmp")`: at most 10000
candidate names are tried; the new file is empty. -/
def CreateTemp (os : OS) (fs : FileSystem) (dir : String) : Except String (String × FileSystem) :=
  if os.CreateTempFails then .error "open failed"
  else
    match createTempTry fs dir (os.Random.take 10000) with
    | none => .error "file exists"
    | some name => .ok (name, fs.set name (some ""))

/-- Function `loadEventsFile` of merge.go. -/
def loadEventsFile (J : JSONLib) (os : OS) (fs : FileSystem) (path : String) :
    Except String EventsFile :=
  if os.ReadFileFails then .error "read failed"
  else
    match fs path with
    | none => .error "no such file or directory"
    | some data => J.Unmarshal data

/-- Function `writeEventsFile` of merge.go.  The deferred function runs on every
return on which `tempFile` is not nil, that is on a failing write, sync or close. -/
def writeEventsFile (J : JSONLib) (os : OS) (fs : FileSystem) (path : String)
    (eventsFile : EventsFile) : Except String Unit × FileSystem :=
  match J.MarshalIndent eventsFile with
  | .error err => (.error err, fs)
  | .ok data =>
    let dir := os.Dir path
    match CreateTemp os fs dir with
    | .error err => (.error ("failed to create temp file: " ++ err), fs)
    | .ok (tempPath, fs) =>
      match os.WriteFails with
      | some n =>
        let fs := fs.set tempPath (some (String.mk (data.data.take n)))
        (.error "failed to write to temp file: write failed", deferredCleanup os fs tempPath)
      | none =>
        let fs := fs.set tempPath (some data)
        if os.SyncFails then
          (.error "failed to sync temp file: sync failed", deferredCleanup os fs tempPath)
        else if os.CloseFails then
          (.error "failed to close temp file: close failed", deferredCleanup os fs tempPath)
        else if os.RenameFails then
          (.error "failed to rename temp file: rename failed", fs)
        else
          (.ok (), Rename fs tempPath path)

/-- The loop of `MergeEvents` that marshals each new event and appends it to
`baseEvents.Events`, here the accumulator. -/
def marshalLoop (J : JSONLib) : List NormalizedEvent → List RawMessage →
    Except String (List RawMessage)
  | [], events => .ok events
  | ne :: rest, events =>
    match J.Marshal ne with
    | .error err => .error ("failed to marshal normalized event: " ++ err)
    | .ok eventJSON => marshalLoop J rest (events ++ [eventJSON])

/-- Function `MergeEvents` of merge.go. -/
def MergeEvents (J : JSONLib) (os : OS) (fs : FileSystem) (eventsJSONPath : String)
    (normalizedEvents : List NormalizedEvent) (outputPath : String) :
    Except String Unit × FileSystem :=
  match loadEventsFile J os fs eventsJSONPath with
  | .error err => (.error ("failed to load base events: " ++ err), fs)
  | .ok baseEvents =>
    match marshalLoop J normalizedEvents baseEvents.Events with
    | .error err => (.error err, fs)
    | .ok events =>
      let baseEvents := { baseEvents with Events := events }
      match writeEventsFile J os fs outputPath baseEvents with
      | (.error err, fs) => (.error ("failed to write merged events: " ++ err), fs)
      | (.ok _, fs) => (.ok (), fs)

/-- What the three passes of `SanitizeSourceName` (lower-casing, spaces to
hyphens, the keeping loop) do to one character of the name. -/
def sanitizeRune (tbl : Char → Char) (c : Char) : Option Char :=
  let l := strings.unicodeToLower tbl c
  let h := if l = ' ' then '-' else l
  if keepRune h then some h else none

/-- The server, in state `s`, answers the chain of `GetEvents` requests that
starts with page token `pageToken` by the pages of the list, one after the
other, each with status 200: every page but the last carries a non-empty
continuation token, the last carries none. -/
def ServesChain {σ : Type} (tr : Transport σ) (T : TimeLib) (c : Client) (calendarID : String)
    (timeMin timeMax : T.Time) : σ → String → List EventsResponse → Prop
  | _, _, [] => False
  | s, pageToken, [page] =>
    (tr.Do s (buildRequest tr T c calendarID timeMin timeMax pageToken)).1
        = .response 200 (.ok page) ∧
      page.NextPageToken = ""
  | s, pageToken, page :: next :: rest =>
    (tr.Do s (buildRequest tr T c calendarID timeMin timeMax pageToken)).1
        = .response 200 (.ok page) ∧
      page.NextPageToken ≠ "" ∧
      ServesChain tr T c calendarID timeMin timeMax
        (tr.Do s (buildRequest tr T c calendarID timeMin timeMax pageToken)).2
        page.NextPageToken (next :: rest)

/-- Whether a server serves a given chain can be computed. -/
instance ServesChain.instDecidable {σ : Type} (tr : Transport σ) (T : TimeLib) (c : Client)
    (calendarID : String) (timeMin timeMax : T.Time) :
    ∀ (s : σ) (pageToken : String) (pages : List EventsResponse),
      Decidable (ServesChain tr T c calendarID timeMin timeMax s pageToken pages)
  | _, _, [] => show Decidable False from inferInstance
  | s, pageToken, [page] =>
    show Decidable
      ((tr.Do s (buildRequest tr T c calendarID timeMin timeMax pageToken)).1
          = .response 200 (.ok page) ∧ page.NextPageToken = "") from inferInstance
  | s, pageToken, page :: next :: rest =>
    have := ServesChain.instDecidable tr T c calendarID timeMin timeMax
      (tr.Do s (buildRequest tr T c calendarID timeMin timeMax pageToken)).2
      page.NextPageToken (next :: rest)
    show Decidable
      ((tr.Do s (buildRequest tr T c calendarID timeMin timeMax pageToken)).1
          = .response 200 (.ok page) ∧ page.NextPageToken ≠ "" ∧
        ServesChain tr T c calendarID timeMin timeMax
          (tr.Do s (buildRequest tr T c calendarID timeMin timeMax pageToken)).2
          page.NextPageToken (next :: rest)) from inferInstance

/-- The entries of Go's Unicode case table whose lower-case form is an ASCII
letter (U+212A KELVIN SIGN to `k`, U+0130 to `i`); other runes are left as they are. -/
def asciiTargetCaseTable (r : Char) : Char :=
  if r.toNat = 0x212A then 'k' else if r.toNat = 0x130 then 'i' else r

/-- Two events whose summary and description concatenate to the same string. -/
def splitEventA : Event :=
  { ID := "a", Summary := "Go meetup", Description := "night", Location := "",
    Start := ⟨"", "2025-03-01", ""⟩, End := ⟨"", "2025-03-02", ""⟩, HTMLLink := "",
    Status := "confirmed" }

/-- The second of the two events: the same characters, split one word earlier. -/
def splitEventB : Event :=
  { ID := "b", Summary := "Go meet", Description := "upnight", Location := "",
    Start := ⟨"", "2025-03-01", ""⟩, End := ⟨"", "2025-03-02", ""⟩, HTMLLink := "",
    Status := "confirmed" }

/-- A third event: other fields, and summary, space, description as for `splitEventB`. -/
def splitEventC : Event :=
  { ID := "c", Summary := "Go", Description := "meet upnight", Location := "Elsewhere",
    Start := ⟨"", "2025-04-01", ""⟩, End := ⟨"", "2025-04-02", ""⟩, HTMLLink := "",
    Status := "tentative" }

/-- An event whose text holds both an include and an exclude keyword. -/
def workshopEvent : Event :=
  { ID := "w", Summary := "Big Workshop", Description := "part of the Cancelled-Series",
    Location := "", Start := ⟨"", "2025-03-01", ""⟩, End := ⟨"", "2025-03-02", ""⟩,
    HTMLLink := "", Status := "confirmed" }

/-- A small time library for the examples: it accepts the fixed-width form
`YYYY-MM-DDTHH:MM:SSZ` (twenty characters, `T` in the middle, `Z` at the end) and
formats the date and the clock time by cutting them out of that string. -/
def fixedWidthTime : TimeLib where
  Time := String
  Parse s :=
    if s.data.length = 20 ∧ s.data.get? 10 = some 'T' ∧ s.data.get? 19 = some 'Z' then .ok s
    else .error "cannot parse as RFC3339"
  FormatDate t := String.mk (t.data.take 10)
  FormatClock t := String.mk ((t.data.drop 11).take 5)
  FormatRFC3339 t := t

/-- A source that hides its events and filters on two keywords. -/
def hiddenSource : Source :=
  { Name := "Test", ContactEmail := "org@example.org", CalendarID := "cal@example.org",
    Color := "#336699", Website := "https://example.org", Visible := some false,
    EventFilter := ⟨["workshop"], ["cancelled-series"]⟩ }

/-- A source with no visibility override and an empty filter. -/
def plainSource : Source :=
  { Name := "Test", ContactEmail := "org@example.org", CalendarID := "cal@example.org",
    Color := "#336699", Website := "https://example.org", Visible := none,
    EventFilter := ⟨[], []⟩ }

/-- An event whose endpoints carry an all-day date and, next to it, a date-time
value that no time library would accept. -/
def allDayEvent : Event :=
  { ID := "e1", Summary := "Hack night", Description := "Bring a laptop", Location := "Library",
    Start := ⟨"not a time", "2025-03-01", "America/Denver"⟩,
    End := ⟨"not a time", "2025-03-02", "America/Denver"⟩,
    HTMLLink := "https://calendar.example/e1", Status := "confirmed" }

/-- A timed event. -/
def timedEvent : Event :=
  { ID := "e2", Summary := "Workshop", Description := "Intro", Location := "Lab",
    Start := ⟨"2025-03-05T18:30:00Z", "", ""⟩, End := ⟨"2025-03-05T20:00:00Z", "", ""⟩,
    HTMLLink := "https://calendar.example/e2", Status := "confirmed" }

/-- An event whose start endpoint has neither a date nor a date-time. -/
def undatedEvent : Event :=
  { ID := "e3", Summary := "Workshop", Description := "No start", Location := "",
    Start := ⟨"", "", ""⟩, End := ⟨"", "2025-03-02", ""⟩,
    HTMLLink := "https://calendar.example/e3", Status := "confirmed" }

/-- A cancelled event that the keyword filter alone would keep. -/
def cancelledEvent : Event :=
  { ID := "e4", Summary := "Workshop", Description := "Called off", Location := "",
    Start := ⟨"", "2025-03-03", ""⟩, End := ⟨"", "2025-03-04", ""⟩,
    HTMLLink := "https://calendar.example/e4", Status := "cancelled" }

/-- A server with two pages: a request without page token gets the first page
and the token `page-2`, a request with that token gets the last page, any other
token gets status 404.  The state counts the requests answered. -/
def twoPageServer : Transport Nat where
  PathEscape s := s
  Do n req :=
    match req.Query.lookup "pageToken" with
    | none => (.response 200 (.ok ⟨[allDayEvent, cancelledEvent], "page-2"⟩), n + 1)
    | some tok =>
      if tok = "page-2" then (.response 200 (.ok ⟨[workshopEvent, timedEvent], ""⟩), n + 1)
      else (.response 404 (.error "no such page"), n + 1)

/-- A JSON string for the examples, for text that needs no escaping. -/
def quoteJSON (s : String) : String :=
  "\"" ++ s ++ "\""

/-- The record of a normalized event, field by field in the order and under the
names of the struct tags of `NormalizedEvent` (`gcalLink` is `omitempty`). -/
def marshalNormalizedEvent (ne : NormalizedEvent) : RawMessage :=
  "\x7b\"id\":" ++ quoteJSON ne.ID ++ ",\"title\":" ++ quoteJSON ne.Title
    ++ ",\"description\":" ++ quoteJSON ne.Description ++ ",\"type\":" ++ quoteJSON ne.Type'
    ++ ",\"startDate\":" ++ quoteJSON ne.StartDate ++ ",\"endDate\":" ++ quoteJSON ne.EndDate
    ++ ",\"startTime\":" ++ quoteJSON ne.StartTime ++ ",\"endTime\":" ++ quoteJSON ne.EndTime
    ++ ",\"location\":" ++ quoteJSON ne.Location ++ ",\"website\":" ++ quoteJSON ne.Website
    ++ (if ne.GcalLink = "" then "" else ",\"gcalLink\":" ++ quoteJSON ne.GcalLink)
    ++ ",\"visible\":" ++ (if ne.Visible then "true" else "false")
    ++ ",\"color\":" ++ quoteJSON ne.Color ++ "\x7d"

/-- The printed form of a catalog in the examples: the two arrays, one record a line. -/
def printCatalog (ef : EventsFile) : String :=
  "\x7b\n  \"events\": [\n    " ++ ",\n    ".intercalate ef.Events
    ++ "\n  ],\n  \"overrides\": [\n    " ++ ",\n    ".intercalate ef.Overrides ++ "\n  ]\n\x7d"

/-- The base catalog of the end-to-end scenario of the specification. -/
def baseCatalog : EventsFile :=
  { Events := ["\x7b\"id\":\"x\"\x7d"], Overrides := [] }

/-- A JSON library for the examples: it prints as above and reads back exactly
the printed form of the base catalog. -/
def exampleJSON : JSONLib where
  Marshal ne := .ok (marshalNormalizedEvent ne)
  MarshalIndent ef := .ok (printCatalog ef)
  Unmarshal data :=
    if data = printCatalog baseCatalog then .ok baseCatalog
    else .error "invalid character"

/-- A file system with the base catalog and an earlier output file. -/
def exampleFiles : FileSystem := fun p =>
  if p = "../events.json" then some (printCatalog baseCatalog)
  else if p = "../events-materialized.json" then some "earlier output"
  else none

/-- An operating system on which no call fails. -/
def healthyOS : OS :=
  { Dir := fun _ => "..", Random := ["1234567"], ReadFileFails := false,
    CreateTempFails := false, WriteFails := none, SyncFails := false, CloseFails := false,
    RenameFails := false, RemoveFails := false }

/-- The normalized event of the end-to-end scenario of the specification. -/
def newEvent : NormalizedEvent :=
  { ID := "Test-e1", Title := "Hack night", Description := "Bring a laptop", Type' := "static",
    StartDate := "2025-03-01", EndDate := "2025-03-02", StartTime := "00:00",
    EndTime := "00:00", Location := "Library", Website := "https://example.org",
    GcalLink := "https://calendar.example/e1", Visible := true, Color := "#336699" }

/-! ## The keyword filter -/

theorem containsRunes_iff_occurs (s sub : List Char) :
    strings.containsRunes s sub = true ↔ sub <:+: s := by
  induction s with
  | nil => simp [strings.containsRunes, List.isPrefixOf_iff_prefix]
  | cons c s ih =>
    simp [strings.containsRunes, List.isPrefixOf_iff_prefix, ih, List.infix_cons_iff]

theorem Contains_iff_occurs (s sub : String) :
    strings.Contains s sub = true ↔ sub.data <:+: s.data :=
  containsRunes_iff_occurs s.data sub.data

theorem excludeLoop_eq_true (tbl : Char → Char) (text : String) (ks : List String) :
    excludeLoop tbl text ks = true ↔
      ¬ ∃ k ∈ ks, k ≠ "" ∧ (strings.ToLower tbl k).data <:+: text.data := by
  induction ks with
  | nil => simp [excludeLoop]
  | cons k ks ih =>
    by_cases h : k ≠ "" ∧ strings.Contains text (strings.ToLower tbl k) = true
    · have h2 := (Contains_iff_occurs _ _).1 h.2
      simp only [excludeLoop, if_pos h]
      simp only [List.mem_cons, exists_eq_or_imp, not_or]
      constructor
      · intro hf; cases hf
      · intro hn; exact absurd ⟨h.1, h2⟩ hn.1
    · simp only [excludeLoop, if_neg h, ih]
      simp only [List.mem_cons, exists_eq_or_imp, not_or]
      constructor
      · intro hn
        refine ⟨?_, hn⟩
        rintro ⟨h1, h2⟩
        exact h ⟨h1, (Contains_iff_occurs _ _).2 h2⟩
      · intro hn; exact hn.2

theorem includeLoop_eq_true (tbl : Char → Char) (text : String) (ks : List String) :
    includeLoop tbl text ks = true ↔
      ∃ k ∈ ks, k ≠ "" ∧ (strings.ToLower tbl k).data <:+: text.data := by
  induction ks with
  | nil => simp [includeLoop]
  | cons k ks ih =>
    by_cases h : k ≠ "" ∧ strings.Contains text (strings.ToLower tbl k) = true
    · have h2 := (Contains_iff_occurs _ _).1 h.2
      simp only [includeLoop, if_pos h, List.mem_cons, exists_eq_or_imp, true_iff]
      exact Or.inl ⟨h.1, h2⟩
    · simp only [includeLoop, if_neg h, ih, List.mem_cons, exists_eq_or_imp]
      constructor
      · intro hn; exact Or.inr hn
      · rintro (⟨h1, h2⟩ | hn)
        · exact absurd ⟨h1, (Contains_iff_occurs _ _).2 h2⟩ h
        · exact hn

theorem shouldIncludeEvent_eq_true (tbl : Char → Char) (event : Event) (filter : EventFilter) :
    shouldIncludeEvent tbl event filter = true ↔
      (¬ ∃ k ∈ filter.ExcludeKeywords,
          k ≠ "" ∧ (strings.ToLower tbl k).data <:+: (eventText tbl event).data) ∧
      (filter.IncludeKeywords = [] ∨
        ∃ k ∈ filter.IncludeKeywords,
          k ≠ "" ∧ (strings.ToLower tbl k).data <:+: (eventText tbl event).data) := by
  unfold shouldIncludeEvent
  simp only []
  rw [← excludeLoop_eq_true, ← includeLoop_eq_true]
  cases hex : excludeLoop tbl (eventText tbl event) filter.ExcludeKeywords
  · simp
  · cases hin : filter.IncludeKeywords with
    | nil => simp
    | cons k ks => simp

/-- C2.  With `T` the lower-cased text `ToLower (Summary + " " + Description)` that
`shouldIncludeEvent` builds: the result is `true` exactly when no non-empty
exclude keyword, lower-cased, is a substring of `T`, and the include list is
empty or some non-empty include keyword, lower-cased, is a substring of `T`.
Hence an exclude match gives `false` whatever the include keywords are, and
with an empty include list the result is `true` exactly when nothing is excluded. -/
theorem shouldIncludeEvent_spec (tbl : Char → Char) (event : Event) (filter : EventFilter) :
    (shouldIncludeEvent tbl event filter = true ↔
      (¬ ∃ k ∈ filter.ExcludeKeywords, k ≠ "" ∧
          (strings.ToLower tbl k).data <:+:
            (strings.ToLower tbl (event.Summary ++ " " ++ event.Description)).data) ∧
      (filter.IncludeKeywords = [] ∨
        ∃ k ∈ filter.IncludeKeywords, k ≠ "" ∧
          (strings.ToLower tbl k).data <:+:
            (strings.ToLower tbl (event.Summary ++ " " ++ event.Description)).data)) ∧
    ((∃ k ∈ filter.ExcludeKeywords, k ≠ "" ∧
          (strings.ToLower tbl k).data <:+:
            (strings.ToLower tbl (event.Summary ++ " " ++ event.Description)).data) →
      shouldIncludeEvent tbl event filter = false) ∧
    (filter.IncludeKeywords = [] →
      (shouldIncludeEvent tbl event filter = true ↔
        ¬ ∃ k ∈ filter.ExcludeKeywords, k ≠ "" ∧
          (strings.ToLower tbl k).data <:+:
            (strings.ToLower tbl (event.Summary ++ " " ++ event.Description)).data)) := by
  have h := shouldIncludeEvent_eq_true tbl event filter
  simp only [eventText] at h
  refine ⟨h, ?_, ?_⟩
  · intro hex
    cases hs : shouldIncludeEvent tbl event filter
    · rfl
    · exact absurd hex (h.1 hs).1
  · intro hin
    rw [h]
    constructor
    · intro hh; exact hh.1
    · intro hh; exact ⟨hh, Or.inl hin⟩

/-- The scenario of the specification: include `workshop`, exclude
`cancelled-series`, an event text holding both; the event is dropped. -/
theorem shouldIncludeEvent_spec_witness :
    shouldIncludeEvent asciiTargetCaseTable workshopEvent
      ⟨["workshop"], ["cancelled-series"]⟩ = false :=
  (shouldIncludeEvent_spec asciiTargetCaseTable workshopEvent
    ⟨["workshop"], ["cancelled-series"]⟩).2.1
    ⟨"cancelled-series", by simp, by decide, by decide⟩

/-- C10, as the specification words it, fails: the two events below have the same
summary-then-description string, and the filter with the single include keyword
`meetup` keeps the first and drops the second. -/
theorem shouldIncludeEvent_concatenation_counterexample :
    splitEventA.Summary ++ splitEventA.Description
        = splitEventB.Summary ++ splitEventB.Description ∧
      shouldIncludeEvent asciiTargetCaseTable splitEventA ⟨["meetup"], []⟩ = true ∧
      shouldIncludeEvent asciiTargetCaseTable splitEventB ⟨["meetup"], []⟩ = false := by
  decide

/-- C10, amended.  The filter result is a function of the filter and of the string
made of the summary, one space, and the description: two events that agree on
that string get the same result under every filter. -/
theorem shouldIncludeEvent_depends_on_text (tbl : Char → Char) (filter : EventFilter)
    (e1 e2 : Event)
    (h : e1.Summary ++ " " ++ e1.Description = e2.Summary ++ " " ++ e2.Description) :
    shouldIncludeEvent tbl e1 filter = shouldIncludeEvent tbl e2 filter := by
  unfold shouldIncludeEvent eventText
  rw [h]

/-- Two different events with the same text `go meet upnight` are filtered alike. -/
theorem shouldIncludeEvent_depends_on_text_witness :
    splitEventB.Summary ++ " " ++ splitEventB.Description
        = splitEventC.Summary ++ " " ++ splitEventC.Description ∧
      shouldIncludeEvent asciiTargetCaseTable splitEventB ⟨["meetup"], []⟩
        = shouldIncludeEvent asciiTargetCaseTable splitEventC ⟨["meetup"], []⟩ :=
  ⟨by decide, shouldIncludeEvent_depends_on_text asciiTargetCaseTable ⟨["meetup"], []⟩
    splitEventB splitEventC (by decide)⟩

/-! ## The name sanitizer -/

theorem char_eq_iff_toNat (c d : Char) : c = d ↔ c.toNat = d.toNat := by
  constructor
  · intro h; rw [h]
  · intro h
    rw [← Char.ofNat_toNat c, ← Char.ofNat_toNat d, h]

theorem toNat_ofNat_add32 (n : Nat) (h1 : 65 ≤ n) (h2 : n ≤ 90) :
    (Char.ofNat (n + 32)).toNat = n + 32 := by
  interval_cases n <;> rfl

theorem keepRune_iff (r : Char) :
    keepRune r = true ↔
      (97 ≤ r.toNat ∧ r.toNat ≤ 122) ∨ (48 ≤ r.toNat ∧ r.toNat ≤ 57) ∨ r = '-' := by
  simp [keepRune, or_assoc]

theorem sanitize_foldl (l : List Char) (acc : String) :
    l.foldl (fun result r => if keepRune r then result ++ String.singleton r else result) acc
      = acc ++ String.mk (l.filter keepRune) := by
  induction l generalizing acc with
  | nil => apply String.ext; simp
  | cons r l ih =>
    simp only [List.foldl_cons, ih]
    by_cases h : keepRune r = true
    · simp only [h, if_true, List.filter_cons_of_pos]
      apply String.ext; simp [String.singleton]
    · simp only [h, List.filter_cons_of_neg, Bool.false_eq_true, if_false, not_false_eq_true]

theorem SanitizeSourceName_eq_filterMap (tbl : Char → Char) (name : String) :
    SanitizeSourceName tbl name = String.mk (name.data.filterMap (sanitizeRune tbl)) := by
  unfold SanitizeSourceName
  simp only [sanitize_foldl, strings.ReplaceAll, strings.ToLower, List.map_map]
  apply String.ext
  simp only [String.data_append, List.nil_append]
  show List.filter keepRune (List.map _ name.data) = List.filterMap (sanitizeRune tbl) name.data
  induction name.data with
  | nil => rfl
  | cons c l ih =>
    simp only [List.map_cons, List.filter_cons, List.filterMap_cons, ih, Function.comp,
      sanitizeRune]
    by_cases hk : keepRune (if strings.unicodeToLower tbl c = ' ' then '-'
        else strings.unicodeToLower tbl c) = true
    · simp only [hk, if_true]
    · simp only [hk, if_false, Bool.false_eq_true]

theorem sanitizeRune_of_toLower (tbl : Char → Char) (c l : Char)
    (hl : strings.unicodeToLower tbl c = l) :
    sanitizeRune tbl c =
      if l.toNat = 32 then some '-'
      else if (97 ≤ l.toNat ∧ l.toNat ≤ 122) ∨ (48 ≤ l.toNat ∧ l.toNat ≤ 57) ∨ l.toNat = 45
        then some l else none := by
  have hs : l = ' ' ↔ l.toNat = 32 := char_eq_iff_toNat l ' '
  have hh : l = '-' ↔ l.toNat = 45 := char_eq_iff_toNat l '-'
  unfold sanitizeRune
  simp only [hl]
  by_cases h32 : l.toNat = 32
  · have h1 : l = ' ' := hs.2 h32
    have hk : keepRune '-' = true := by decide
    simp only [h1, if_true, hk]
    rfl
  · have h1 : ¬ l = ' ' := fun h => h32 (hs.1 h)
    simp only [h1, h32, if_false, keepRune_iff, hh]

theorem sanitizeRune_eq_spec (tbl : Char → Char) (c : Char)
    (h : 127 < c.toNat → 127 < (tbl c).toNat) : sanitizeRune tbl c = sanitizeSpecRune c := by
  have hs : c = ' ' ↔ c.toNat = 32 := char_eq_iff_toNat c ' '
  have hh : c = '-' ↔ c.toNat = 45 := char_eq_iff_toNat c '-'
  by_cases hA : c.toNat ≤ 127
  · by_cases hU : 65 ≤ c.toNat ∧ c.toNat ≤ 90
    · have ht := toNat_ofNat_add32 c.toNat hU.1 hU.2
      have hl : strings.unicodeToLower tbl c = Char.ofNat (c.toNat + 32) := by
        simp only [strings.unicodeToLower, hA, hU, and_self, if_true]
      rw [sanitizeRune_of_toLower tbl c _ hl, ht]
      unfold sanitizeSpecRune
      rw [if_neg (by omega), if_pos (by omega), if_pos hU]
    · have hl : strings.unicodeToLower tbl c = c := by
        simp only [strings.unicodeToLower, hA, hU, if_true, if_false]
      rw [sanitizeRune_of_toLower tbl c _ hl]
      unfold sanitizeSpecRune
      simp only [hs, hh]
      rw [if_neg hU]
      by_cases h32 : c.toNat = 32
      · rw [if_pos h32, if_neg (by omega), if_pos h32]
      · rw [if_neg h32]
        by_cases hL : 97 ≤ c.toNat ∧ c.toNat ≤ 122
        · rw [if_pos (Or.inl hL), if_pos hL]
        · rw [if_neg hL, if_neg h32]
          by_cases hD : (48 ≤ c.toNat ∧ c.toNat ≤ 57) ∨ c.toNat = 45
          · rw [if_pos (Or.inr hD), if_pos hD]
          · rw [if_neg hD, if_neg]
            rintro (h1 | h1)
            · exact hL h1
            · exact hD h1
  · have hT := h (by omega)
    have hl : strings.unicodeToLower tbl c = tbl c := by
      simp only [strings.unicodeToLower, hA, if_false]
    rw [sanitizeRune_of_toLower tbl c _ hl]
    unfold sanitizeSpecRune
    simp only [hs, hh]
    rw [if_neg (by omega), if_neg (by omega), if_neg (by omega), if_neg (by omega),
      if_neg (by omega), if_neg (by omega)]

/-- C9 as the specification words it fails: U+212A KELVIN SIGN is not an ASCII
letter, a space, a digit or a hyphen, so the rule drops it, yet Go's lower-casing
turns it into `k`, which the loop keeps. -/
theorem SanitizeSourceName_kelvin_counterexample :
    SanitizeSourceName asciiTargetCaseTable "\u212A" = "k" ∧ sanitizeSpec "\u212A" = "" := by
  decide

/-- C9, amended.  `SanitizeSourceName` reads the characters of the name in order,
replaces each by its `unicode.ToLower` form, turns a space into `-`, and keeps
the outcome exactly when it is a lowercase ASCII letter, an ASCII digit or `-`;
the result holds only such characters; and on every name whose non-ASCII
characters all have a non-ASCII lower-case form the result is the one of the
specification's rule (ASCII letter to lowercase, space to `-`, digit and `-`
kept, everything else dropped). -/
theorem SanitizeSourceName_amended (tbl : Char → Char) (name : String) :
    SanitizeSourceName tbl name = String.mk (name.data.filterMap (sanitizeRune tbl)) ∧
    (∀ c ∈ (SanitizeSourceName tbl name).data,
      (97 ≤ c.toNat ∧ c.toNat ≤ 122) ∨ (48 ≤ c.toNat ∧ c.toNat ≤ 57) ∨ c = '-') ∧
    ((∀ c ∈ name.data, 127 < c.toNat → 127 < (tbl c).toNat) →
      SanitizeSourceName tbl name = sanitizeSpec name) := by
  refine ⟨SanitizeSourceName_eq_filterMap tbl name, ?_, ?_⟩
  · intro c hc
    rw [SanitizeSourceName_eq_filterMap] at hc
    simp only [List.mem_filterMap] at hc
    obtain ⟨a, _, ha⟩ := hc
    unfold sanitizeRune at ha
    simp only [] at ha
    by_cases hk : keepRune (if strings.unicodeToLower tbl a = ' ' then '-'
        else strings.unicodeToLower tbl a) = true
    · rw [if_pos hk] at ha
      cases ha
      exact (keepRune_iff _).1 hk
    · rw [if_neg hk] at ha
      cases ha
  · intro h
    rw [SanitizeSourceName_eq_filterMap]
    unfold sanitizeSpec
    congr 1
    apply List.filterMap_congr
    intro c hc
    exact sanitizeRune_eq_spec tbl c (h c hc)

/-- The example of the specification: `NoCo Tech!` is an ASCII name and is
sanitized to `noco-tech`, by the rule of the specification. -/
theorem SanitizeSourceName_amended_witness :
    SanitizeSourceName asciiTargetCaseTable "NoCo Tech!" = sanitizeSpec "NoCo Tech!" ∧
      sanitizeSpec "NoCo Tech!" = "noco-tech" :=
  ⟨(SanitizeSourceName_amended asciiTargetCaseTable "NoCo Tech!").2.2 (by decide), by decide⟩

/-! ## The normalizer -/

theorem parseEventDateTime_date (T : TimeLib) (edt : EventDateTime) (h : edt.Date ≠ "") :
    parseEventDateTime T edt = .ok (edt.Date, "00:00") := by
  unfold parseEventDateTime
  rw [if_pos h]

/-- The shape of every successful result of `NormalizeEvent`. -/
theorem NormalizeEvent_ok_shape (T : TimeLib) (event : Event) (source : Source)
    (ne : NormalizedEvent) (h : NormalizeEvent T event source = .ok ne) :
    ∃ sd st ed et,
      parseEventDateTime T event.Start = .ok (sd, st) ∧
      parseEventDateTime T event.End = .ok (ed, et) ∧
      ne = { ID := source.Name ++ "-" ++ event.ID, Title := event.Summary,
             Description := event.Description, Type' := "static", StartDate := sd,
             EndDate := ed, StartTime := st, EndTime := et, Location := event.Location,
             Website := source.Website, GcalLink := event.HTMLLink,
             Visible := (match source.Visible with | some v => v | none => true),
             Color := source.Color } := by
  unfold NormalizeEvent at h
  simp only [] at h
  cases hs : parseEventDateTime T event.Start with
  | error err => rw [hs] at h; cases h
  | ok ps =>
    obtain ⟨sd, st⟩ := ps
    cases he : parseEventDateTime T event.End with
    | error err => rw [hs, he] at h; cases h
    | ok pe =>
      obtain ⟨ed, et⟩ := pe
      rw [hs, he] at h
      simp only [Except.ok.injEq] at h
      exact ⟨sd, st, ed, et, rfl, rfl, h.symm⟩

/-- C4.  When `NormalizeEvent` succeeds, a start endpoint with a non-empty all-day
date `D` gives `StartDate = D` and `StartTime = "00:00"`, and an end endpoint
with a non-empty all-day date gives `EndDate` and `EndTime` likewise, whatever
the `DateTime` field of that endpoint holds; and `NormalizeEvent` succeeds
whenever both endpoints carry a non-empty all-day date. -/
theorem NormalizeEvent_all_day (T : TimeLib) (event : Event) (source : Source) :
    (∀ ne, NormalizeEvent T event source = .ok ne →
      (event.Start.Date ≠ "" →
        ne.StartDate = event.Start.Date ∧ ne.StartTime = "00:00") ∧
      (event.End.Date ≠ "" →
        ne.EndDate = event.End.Date ∧ ne.EndTime = "00:00")) ∧
    (event.Start.Date ≠ "" → event.End.Date ≠ "" →
      ∃ ne, NormalizeEvent T event source = .ok ne) := by
  constructor
  · intro ne h
    obtain ⟨sd, st, ed, et, hs, he, hne⟩ := NormalizeEvent_ok_shape T event source ne h
    constructor
    · intro hd
      rw [parseEventDateTime_date T _ hd] at hs
      simp only [Except.ok.injEq, Prod.mk.injEq] at hs
      rw [hne]
      exact ⟨hs.1.symm, hs.2.symm⟩
    · intro hd
      rw [parseEventDateTime_date T _ hd] at he
      simp only [Except.ok.injEq, Prod.mk.injEq] at he
      rw [hne]
      exact ⟨he.1.symm, he.2.symm⟩
  · intro hs he
    unfold NormalizeEvent
    simp only [parseEventDateTime_date T _ hs, parseEventDateTime_date T _ he]
    exact ⟨_, rfl⟩

/-- An event with an all-day date and an unparsable date-time on both endpoints
is normalized, with the dates copied and both times `00:00`. -/
theorem NormalizeEvent_all_day_witness :
    ∃ ne, NormalizeEvent fixedWidthTime allDayEvent plainSource = .ok ne ∧
      (ne.StartDate = "2025-03-01" ∧ ne.StartTime = "00:00") ∧
      (ne.EndDate = "2025-03-02" ∧ ne.EndTime = "00:00") := by
  obtain ⟨ne, hne⟩ := (NormalizeEvent_all_day fixedWidthTime allDayEvent plainSource).2
    (by decide) (by decide)
  have h := (NormalizeEvent_all_day fixedWidthTime allDayEvent plainSource).1 ne hne
  exact ⟨ne, hne, h.1 (by decide), h.2 (by decide)⟩

/-- C5.  When `NormalizeEvent` succeeds, `Visible` is `true` for a source without
a visibility override and is the override otherwise; the identifier is the
source name, a hyphen and the event identifier; title, description, location
and the provider link are copied from the event; the type is `static`; website
and colour come from the source. -/
theorem NormalizeEvent_fields (T : TimeLib) (event : Event) (source : Source)
    (ne : NormalizedEvent) (h : NormalizeEvent T event source = .ok ne) :
    (source.Visible = none → ne.Visible = true) ∧
    (∀ v, source.Visible = some v → ne.Visible = v) ∧
    ne.ID = source.Name ++ "-" ++ event.ID ∧
    ne.Title = event.Summary ∧
    ne.Description = event.Description ∧
    ne.Location = event.Location ∧
    ne.Type' = "static" ∧
    ne.Website = source.Website ∧
    ne.Color = source.Color ∧
    ne.GcalLink = event.HTMLLink := by
  obtain ⟨sd, st, ed, et, _, _, hne⟩ := NormalizeEvent_ok_shape T event source ne h
  subst hne
  refine ⟨?_, ?_, rfl, rfl, rfl, rfl, rfl, rfl, rfl, rfl⟩
  · intro hv; simp only [hv]
  · intro v hv; simp only [hv]

/-- A source with `visible = false`: the timed event is normalized, hidden, and
keeps its provider link. -/
theorem NormalizeEvent_fields_witness :
    NormalizeEvent fixedWidthTime timedEvent hiddenSource = .ok
      { ID := "Test-e2", Title := "Workshop", Description := "Intro", Type' := "static",
        StartDate := "2025-03-05", EndDate := "2025-03-05", StartTime := "18:30",
        EndTime := "20:00", Location := "Lab", Website := "https://example.org",
        GcalLink := "https://calendar.example/e2", Visible := false, Color := "#336699" } ∧
    (∀ ne, NormalizeEvent fixedWidthTime timedEvent hiddenSource = .ok ne →
      ne.Visible = false ∧ ne.GcalLink = "https://calendar.example/e2") :=
  ⟨by decide, fun ne h =>
    ⟨(NormalizeEvent_fields fixedWidthTime timedEvent hiddenSource ne h).2.1 false rfl,
     (NormalizeEvent_fields fixedWidthTime timedEvent hiddenSource ne h).2.2.2.2.2.2.2.2.2⟩⟩

theorem normalizeLoop_eq (T : TimeLib) (source : Source) (events : List Event)
    (acc : List NormalizedEvent) :
    normalizeLoop T source events acc
      = acc ++ events.filterMap (fun e => (NormalizeEvent T e source).toOption) := by
  induction events generalizing acc with
  | nil => simp [normalizeLoop]
  | cons e rest ih =>
    unfold normalizeLoop
    cases h : NormalizeEvent T e source with
    | error err => simp [ih, List.filterMap_cons, h, Except.toOption]
    | ok ne => simp [ih, List.filterMap_cons, h, Except.toOption]

/-- C6.  `NormalizeEvents` never returns an error: its result is the list, in input
order, of the results of `NormalizeEvent` on the events on which it succeeds.
So an event on which `NormalizeEvent` fails can be taken out of the input
without changing the result, and an endpoint with neither a date nor a
date-time makes `NormalizeEvent` fail. -/
theorem NormalizeEvents_skips_failures (T : TimeLib) (events : List Event) (source : Source) :
    NormalizeEvents T events source
      = .ok (events.filterMap (fun e => (NormalizeEvent T e source).toOption)) ∧
    (∀ before bad after err, events = before ++ bad :: after →
      NormalizeEvent T bad source = .error err →
      NormalizeEvents T events source = NormalizeEvents T (before ++ after) source) ∧
    (∀ e ∈ events, (e.Start.Date = "" ∧ e.Start.DateTime = "") ∨
        (e.End.Date = "" ∧ e.End.DateTime = "") →
      ∃ err, NormalizeEvent T e source = .error err) := by
  have hall : ∀ evs, NormalizeEvents T evs source
      = .ok (evs.filterMap (fun e => (NormalizeEvent T e source).toOption)) := by
    intro evs
    unfold NormalizeEvents
    rw [normalizeLoop_eq]
    rfl
  refine ⟨hall events, ?_, ?_⟩
  · intro before bad after err hev hbad
    rw [hall, hall, hev]
    simp [List.filterMap_append, List.filterMap_cons, hbad, Except.toOption]
  · intro e _ hempty
    unfold NormalizeEvent
    simp only []
    rcases hempty with ⟨h1, h2⟩ | ⟨h1, h2⟩
    · simp [parseEventDateTime, h1, h2]
    · cases hs : parseEventDateTime T e.Start with
      | error err => exact ⟨_, rfl⟩
      | ok ps => simp [parseEventDateTime, h1, h2]

/-- The example of the claim: a valid event, an event with an empty start and
another valid event give the normalizations of the two valid events, in order. -/
theorem NormalizeEvents_skips_failures_witness :
    NormalizeEvents fixedWidthTime [allDayEvent, undatedEvent, timedEvent] plainSource
      = NormalizeEvents fixedWidthTime ([allDayEvent] ++ [timedEvent]) plainSource ∧
    NormalizeEvents fixedWidthTime [allDayEvent, undatedEvent, timedEvent] plainSource = .ok
      [{ ID := "Test-e1", Title := "Hack night", Description := "Bring a laptop",
         Type' := "static", StartDate := "2025-03-01", EndDate := "2025-03-02",
         StartTime := "00:00", EndTime := "00:00", Location := "Library",
         Website := "https://example.org", GcalLink := "https://calendar.example/e1",
         Visible := true, Color := "#336699" },
       { ID := "Test-e2", Title := "Workshop", Description := "Intro", Type' := "static",
         StartDate := "2025-03-05", EndDate := "2025-03-05", StartTime := "18:30",
         EndTime := "20:00", Location := "Lab", Website := "https://example.org",
         GcalLink := "https://calendar.example/e2", Visible := true, Color := "#336699" }] :=
  ⟨(NormalizeEvents_skips_failures fixedWidthTime [allDayEvent, undatedEvent, timedEvent]
      plainSource).2.1 [allDayEvent] undatedEvent [timedEvent]
      "failed to parse start time: event has no date or datetime" rfl (by decide),
   by decide⟩

/-! ## The paginated client and the fetch step -/

theorem getEventsLoop_chain {σ : Type} (tr : Transport σ) (T : TimeLib) (c : Client)
    (calendarID : String) (timeMin timeMax : T.Time) (pages : List EventsResponse) :
    ∀ (fuel : Nat) (s : σ) (acc : List Event) (tok : String) (sent : List Request),
      ServesChain tr T c calendarID timeMin timeMax s tok pages → pages.length ≤ fuel →
      ∃ s1, getEventsLoop tr T c calendarID timeMin timeMax fuel s acc tok sent
        = some (.ok (acc ++ (pages.map (fun p => p.Items)).flatten), s1,
            sent ++ (tok :: pages.dropLast.map (fun p => p.NextPageToken)).map
              (buildRequest tr T c calendarID timeMin timeMax)) := by
  induction pages with
  | nil => intro fuel s acc tok sent h; exact absurd h (by simp [ServesChain])
  | cons page rest ih =>
    intro fuel s acc tok sent h hfuel
    cases fuel with
    | zero => simp at hfuel
    | succ fuel =>
      cases rest with
      | nil =>
        obtain ⟨hdo, htok⟩ := h
        cases hd : tr.Do s (buildRequest tr T c calendarID timeMin timeMax tok) with
        | mk r s1 =>
          rw [hd] at hdo
          simp only at hdo
          subst hdo
          refine ⟨s1, ?_⟩
          simp [getEventsLoop, hd, htok]
      | cons next rest =>
        obtain ⟨hdo, htok, hrest⟩ := h
        cases hd : tr.Do s (buildRequest tr T c calendarID timeMin timeMax tok) with
        | mk r s1 =>
          rw [hd] at hdo hrest
          simp only at hdo hrest
          subst hdo
          have hlen : (next :: rest).length ≤ fuel := by
            simp only [List.length_cons] at hfuel ⊢; omega
          obtain ⟨s2, h2⟩ := ih fuel s1 (acc ++ page.Items) page.NextPageToken
            (sent ++ [buildRequest tr T c calendarID timeMin timeMax tok]) hrest hlen
          refine ⟨s2, ?_⟩
          simp only [getEventsLoop, hd, htok, if_false, ne_eq, not_true_eq_false, h2]
          simp [List.dropLast]

theorem ServesChain_length {σ : Type} (tr : Transport σ) (T : TimeLib) (c : Client)
    (calendarID : String) (timeMin timeMax : T.Time) (s : σ) (tok : String)
    (pages : List EventsResponse)
    (h : ServesChain tr T c calendarID timeMin timeMax s tok pages) : 1 ≤ pages.length := by
  cases pages with
  | nil => exact absurd h (by simp [ServesChain])
  | cons p rest => simp

/-- C8.  When the server answers the chain of requests with `N` pages of status
200, the first `N-1` with a non-empty continuation token and the last with
none, then `N ≥ 1` and, with any fuel of at least `N` iterations, `GetEvents`
returns the concatenation of the pages' items in page order after sending
exactly `N` requests: the first built without a page token, the `k`-th built
with the token of page `k-1`.  A request built for the empty token has no
`pageToken` parameter, one built for a non-empty token carries it. -/
theorem GetEvents_pagination {σ : Type} (tr : Transport σ) (T : TimeLib) (c : Client)
    (calendarID : String) (timeMin timeMax : T.Time) (s : σ) (pages : List EventsResponse)
    (fuel : Nat)
    (hchain : ServesChain tr T c calendarID timeMin timeMax s "" pages)
    (hfuel : pages.length ≤ fuel) :
    1 ≤ pages.length ∧
    (∃ s1 sent,
      c.GetEvents tr T fuel s calendarID timeMin timeMax
        = some (.ok ((pages.map (fun p => p.Items)).flatten), s1, sent) ∧
      sent = ("" :: pages.dropLast.map (fun p => p.NextPageToken)).map
              (buildRequest tr T c calendarID timeMin timeMax) ∧
      sent.length = pages.length) ∧
    (buildRequest tr T c calendarID timeMin timeMax "").Query.lookup "pageToken" = none ∧
    (∀ tok, tok ≠ "" →
      (buildRequest tr T c calendarID timeMin timeMax tok).Query.lookup "pageToken"
        = some tok) := by
  have hlen := ServesChain_length tr T c calendarID timeMin timeMax s "" pages hchain
  refine ⟨hlen, ?_, ?_, ?_⟩
  · obtain ⟨s1, h1⟩ := getEventsLoop_chain tr T c calendarID timeMin timeMax pages fuel s []
      "" [] hchain hfuel
    refine ⟨s1, _, ?_, rfl, ?_⟩
    · unfold Client.GetEvents
      rw [h1]
      simp
    · simp only [List.length_map, List.length_cons, List.length_dropLast]
      omega
  · unfold buildRequest
    by_cases hk : c.apiKey = "" <;> simp [hk, List.lookup]
  · intro tok htok
    unfold buildRequest
    by_cases hk : c.apiKey = "" <;> simp [hk, htok, List.lookup]

/-- The two-page server: two requests, the second with the token `page-2`, and
the four events of the two pages in page order. -/
theorem GetEvents_pagination_witness :
    ∃ s1 sent,
      Client.GetEvents twoPageServer fixedWidthTime ⟨"key"⟩ 5 0 "cal@example.org"
          "2024-11-01T00:00:00Z" "2026-11-30T23:59:59Z"
        = some (.ok [allDayEvent, cancelledEvent, workshopEvent, timedEvent], s1, sent) ∧
      sent = ["", "page-2"].map (buildRequest twoPageServer fixedWidthTime ⟨"key"⟩
        "cal@example.org" "2024-11-01T00:00:00Z" "2026-11-30T23:59:59Z") ∧
      sent.length = 2 :=
  (GetEvents_pagination twoPageServer fixedWidthTime ⟨"key"⟩ "cal@example.org"
    "2024-11-01T00:00:00Z" "2026-11-30T23:59:59Z" 0
    [⟨[allDayEvent, cancelledEvent], "page-2"⟩, ⟨[workshopEvent, timedEvent], ""⟩] 5
    (by decide) (by decide)).2.1

theorem filterLoop_eq (tbl : Char → Char) (source : Source) (events acc : List Event) :
    filterLoop tbl source events acc
      = acc ++ events.filter (fun e =>
          decide (e.Status ≠ "cancelled") && shouldIncludeEvent tbl e source.EventFilter) := by
  induction events generalizing acc with
  | nil => simp [filterLoop]
  | cons e rest ih =>
    unfold filterLoop
    by_cases hc : e.Status = "cancelled"
    · simp [hc, ih]
    · by_cases hs : shouldIncludeEvent tbl e source.EventFilter = true
      · simp [hc, hs, ih]
      · simp [hc, hs, ih]

/-- C3.  When the client returns the list `events` without error, `FetchEvents`
returns without error the events of that list that do not have status
`cancelled` and for which `shouldIncludeEvent` holds under the source's filter,
in the client's order: the result is a sublist of the client's list and holds
no event with status `cancelled`, whatever the keywords are. -/
theorem FetchEvents_filters {σ : Type} (tbl : Char → Char) (tr : Transport σ) (T : TimeLib)
    (client : Client) (fuel : Nat) (s : σ) (source : Source) (timeMin timeMax : T.Time)
    (events : List Event) (s1 : σ) (sent : List Request)
    (h : client.GetEvents tr T fuel s source.CalendarID timeMin timeMax
      = some (.ok events, s1, sent)) :
    ∃ result,
      FetchEvents tbl tr T client fuel s source timeMin timeMax = some (.ok result, s1, sent) ∧
      result = events.filter (fun e =>
        decide (e.Status ≠ "cancelled") && shouldIncludeEvent tbl e source.EventFilter) ∧
      result.Sublist events ∧
      (∀ e ∈ result, e.Status ≠ "cancelled") ∧
      (∀ e ∈ events, e ∈ result ↔
        (e.Status ≠ "cancelled" ∧ shouldIncludeEvent tbl e source.EventFilter = true)) := by
  refine ⟨_, ?_, rfl, List.filter_sublist _, ?_, ?_⟩
  · unfold FetchEvents
    rw [h]
    simp only [filterLoop_eq, List.nil_append]
  · intro e he
    simp only [List.mem_filter, Bool.and_eq_true, decide_eq_true_eq] at he
    exact he.2.1
  · intro e he
    simp only [List.mem_filter, Bool.and_eq_true, decide_eq_true_eq]
    constructor
    · intro h1; exact h1.2
    · intro h1; exact ⟨he, h1⟩

/-- The two-page server and the keyword filter of `hiddenSource`: of the four
events the client returns, the cancelled one and the one with an exclude
keyword go, as does the one without an include keyword. -/
theorem FetchEvents_filters_witness :
    ∃ result,
      FetchEvents asciiTargetCaseTable twoPageServer fixedWidthTime ⟨"key"⟩ 5 0 hiddenSource
          "2024-11-01T00:00:00Z" "2026-11-30T23:59:59Z"
        = some (.ok result, 2, ["", "page-2"].map (buildRequest twoPageServer fixedWidthTime
            ⟨"key"⟩ "cal@example.org" "2024-11-01T00:00:00Z" "2026-11-30T23:59:59Z")) ∧
      result = [timedEvent] := by
  obtain ⟨result, h1, h2, _⟩ := FetchEvents_filters asciiTargetCaseTable twoPageServer
    fixedWidthTime ⟨"key"⟩ 5 0 hiddenSource "2024-11-01T00:00:00Z" "2026-11-30T23:59:59Z"
    [allDayEvent, cancelledEvent, workshopEvent, timedEvent] 2
    (["", "page-2"].map (buildRequest twoPageServer fixedWidthTime
      ⟨"key"⟩ "cal@example.org" "2024-11-01T00:00:00Z" "2026-11-30T23:59:59Z"))
    (by decide)
  refine ⟨result, h1, ?_⟩
  rw [h2]
  decide

/-! ## The merger -/

theorem Rename_target (fs : FileSystem) (oldpath newpath : String) :
    Rename fs oldpath newpath newpath = fs oldpath := by
  unfold Rename
  by_cases h : oldpath = newpath
  · simp [h]
  · have h2 : ¬ newpath = oldpath := fun e => h e.symm
    simp [h, h2, FileSystem.set]

theorem writeEventsFile_ok (J : JSONLib) (os : OS) (fs : FileSystem) (path : String)
    (eventsFile : EventsFile) (h : (writeEventsFile J os fs path eventsFile).1 = .ok ()) :
    ∃ data, J.MarshalIndent eventsFile = .ok data ∧
      (writeEventsFile J os fs path eventsFile).2 path = some data := by
  unfold writeEventsFile at h ⊢
  cases hm : J.MarshalIndent eventsFile with
  | error err => rw [hm] at h; cases h
  | ok data =>
    rw [hm] at h
    simp only [] at h ⊢
    cases hc : CreateTemp os fs (os.Dir path) with
    | error err => rw [hc] at h; cases h
    | ok created =>
      obtain ⟨tempPath, fs1⟩ := created
      rw [hc] at h
      simp only [] at h ⊢
      cases hw : os.WriteFails with
      | some n => rw [hw] at h; cases h
      | none =>
        rw [hw] at h
        simp only [] at h ⊢
        by_cases hs : os.SyncFails = true
        · rw [if_pos hs] at h; cases h
        · by_cases hcl : os.CloseFails = true
          · rw [if_neg hs, if_pos hcl] at h; cases h
          · by_cases hr : os.RenameFails = true
            · rw [if_neg hs, if_neg hcl, if_pos hr] at h; cases h
            · refine ⟨data, rfl, ?_⟩
              rw [if_neg hs, if_neg hcl, if_neg hr]
              simp only [Rename_target]
              simp [FileSystem.set]

theorem marshalLoop_ok (J : JSONLib) (nes : List NormalizedEvent) :
    ∀ (acc events : List RawMessage), marshalLoop J nes acc = .ok events →
      ∃ records, List.Forall₂ (fun ne record => J.Marshal ne = .ok record) nes records ∧
        events = acc ++ records := by
  induction nes with
  | nil =>
    intro acc events h
    simp only [marshalLoop, Except.ok.injEq] at h
    exact ⟨[], List.Forall₂.nil, by simp [h]⟩
  | cons ne rest ih =>
    intro acc events h
    unfold marshalLoop at h
    cases hm : J.Marshal ne with
    | error err => rw [hm] at h; cases h
    | ok record =>
      rw [hm] at h
      obtain ⟨records, hrec, hev⟩ := ih _ _ h
      exact ⟨record :: records, List.Forall₂.cons hm hrec, by simp [hev]⟩

/-- C1.  When `MergeEvents` succeeds, the base file exists and parses to a base
catalog, every new event marshals to one record, and the content of the output
path is the serialization of the catalog whose `Events` are the base catalog's
events, unchanged and in order, followed by the new events' records in the
caller's order (so base length plus number of new events, whatever the
identifiers are), and whose `Overrides` are the base catalog's. -/
theorem MergeEvents_appends (J : JSONLib) (os : OS) (fs : FileSystem) (eventsJSONPath : String)
    (normalizedEvents : List NormalizedEvent) (outputPath : String)
    (h : (MergeEvents J os fs eventsJSONPath normalizedEvents outputPath).1 = .ok ()) :
    ∃ baseData base records written data,
      fs eventsJSONPath = some baseData ∧
      J.Unmarshal baseData = .ok base ∧
      List.Forall₂ (fun ne record => J.Marshal ne = .ok record) normalizedEvents records ∧
      written = { Events := base.Events ++ records, Overrides := base.Overrides } ∧
      written.Events.length = base.Events.length + normalizedEvents.length ∧
      J.MarshalIndent written = .ok data ∧
      (MergeEvents J os fs eventsJSONPath normalizedEvents outputPath).2 outputPath
        = some data := by
  unfold MergeEvents at h ⊢
  cases hl : loadEventsFile J os fs eventsJSONPath with
  | error err => rw [hl] at h; cases h
  | ok base =>
    rw [hl] at h
    simp only [] at h ⊢
    cases hm : marshalLoop J normalizedEvents base.Events with
    | error err => rw [hm] at h; cases h
    | ok events =>
      rw [hm] at h
      simp only [] at h ⊢
      obtain ⟨records, hrec, hev⟩ := marshalLoop_ok J normalizedEvents _ _ hm
      cases hw : writeEventsFile J os fs outputPath
          { Events := events, Overrides := base.Overrides } with
      | mk res fs1 =>
        rw [hw] at h
        cases res with
        | error err => cases h
        | ok u =>
          have hok : (writeEventsFile J os fs outputPath
              { Events := events, Overrides := base.Overrides }).1 = .ok () := by rw [hw]
          obtain ⟨data, hdata, hout⟩ := writeEventsFile_ok J os fs outputPath _ hok
          rw [hw] at hout
          unfold loadEventsFile at hl
          split at hl
          · cases hl
          · cases hb : fs eventsJSONPath with
            | none => rw [hb] at hl; cases hl
            | some baseData =>
              rw [hb] at hl
              refine ⟨baseData, base, records, _, data, rfl, hl, hrec, rfl, ?_, ?_, hout⟩
              · simp [List.Forall₂.length_eq hrec]
              · rw [← hev]; exact hdata

set_option maxRecDepth 100000 in
/-- The end-to-end scenario of the specification: the base catalog with the one
record of id `x` and no overrides, merged with one event of id `Test-e1`. -/
theorem MergeEvents_appends_witness :
    (∃ baseData base records written data,
      exampleFiles "../events.json" = some baseData ∧
      exampleJSON.Unmarshal baseData = .ok base ∧
      List.Forall₂ (fun ne record => exampleJSON.Marshal ne = .ok record) [newEvent] records ∧
      written = { Events := base.Events ++ records, Overrides := base.Overrides } ∧
      written.Events.length = base.Events.length + [newEvent].length ∧
      exampleJSON.MarshalIndent written = .ok data ∧
      (MergeEvents exampleJSON healthyOS exampleFiles "../events.json" [newEvent]
        "../events-materialized.json").2 "../events-materialized.json" = some data) ∧
    (MergeEvents exampleJSON healthyOS exampleFiles "../events.json" [newEvent]
        "../events-materialized.json").2 "../events-materialized.json"
      = some (printCatalog
          { Events := ["\x7b\"id\":\"x\"\x7d", marshalNormalizedEvent newEvent],
            Overrides := [] }) :=
  ⟨MergeEvents_appends exampleJSON healthyOS exampleFiles "../events.json" [newEvent]
    "../events-materialized.json" (by decide), by decide⟩

end CalendarSync
